import Mathlib

/-!
Verification development for `cdptools/legistar_utils/events.py`.

The two functions with nontrivial logic are embedded here:

* `get_matching_legistar_event_by_minutes_match` (the Matcher): fuzzy
  best-candidate selection over a list of Legistar event dictionaries.
* `parse_legistar_event_details` (the Normalizer): transformation of one
  nested Legistar event dictionary into the flat canonical record.

Python dictionaries with possibly-absent keys are embedded as structures
whose fields are `Option`-valued (`none` = key absent from the dictionary).
A subscript access `d["k"]` is embedded as `getK "k"`, which raises a
`KeyError` (an `Except.error`) when the key is absent.  Python values that
can sit in those dictionary slots are embedded as `Value` (`None`, `bool`,
`int`, `str`), with Python truthiness as `Value.truthy` and the `int(...)`
coercion as `pyInt`.  Fallible code returns `Except PErr`.

`fuzzywuzzy.fuzz.token_set_ratio` is an external capability; the Matcher is
parameterised over a score function `List String → List Value → Nat`
(the target strings are lower-cased Python strings, the candidate side is
the list of raw dictionary values the source appends).
-/

set_option autoImplicit false

namespace CdpTools

/-- A Python value that can appear in the Legistar dictionaries:
`None`, a `bool`, an `int`, or a `str`. -/
inductive Value where
  | vNone : Value
  | vBool : Bool → Value
  | vInt : Int → Value
  | vStr : String → Value
deriving DecidableEq, Repr

/-- Python exceptions raised by the embedded code. -/
inductive PErr where
  | keyError : String → PErr
  | valueError : String → PErr
  | typeError : String → PErr
  | attributeError : String → PErr
deriving DecidableEq, Repr

/-- Python truthiness of a `Value` (`bool(v)`). -/
def Value.truthy : Value → Bool
  | .vNone => false
  | .vBool b => b
  | .vInt n => n != 0
  | .vStr s => s != ""

/-- Whether a `Value` is a Python `int`. -/
def Value.isInt : Value → Bool
  | .vInt _ => true
  | _ => false

/-- Integer literal parsing as done by Python `int(str)`: an optional sign
followed by a nonempty digit string.  (Python also strips whitespace and
allows underscores; those forms do not occur in this development.) -/
def strToInt? (s : String) : Option Int :=
  match s.data with
  | [] => none
  | c :: cs =>
    let p : Bool × List Char :=
      if c = '-' then (true, cs) else if c = '+' then (false, cs) else (false, c :: cs)
    if p.2 ≠ [] ∧ p.2.all Char.isDigit then
      let n : Nat := p.2.foldl (fun a d => a * 10 + (d.toNat - 48)) 0
      some (if p.1 then -(n : Int) else (n : Int))
    else none

/-- Python `int(v)` on a `Value`. -/
def pyInt : Value → Except PErr Int
  | .vInt n => .ok n
  | .vBool b => .ok (if b then 1 else 0)
  | .vStr s =>
    match strToInt? s with
    | some n => .ok n
    | none => .error (.valueError ("invalid literal for int: " ++ s))
  | .vNone => .error (.typeError "int() argument cannot be None")

/-- Python `str(v)`, as used by `"...".format(v)`. -/
def pyStrOf : Value → String
  | .vNone => "None"
  | .vBool b => if b then "True" else "False"
  | .vInt n => toString n
  | .vStr s => s

/-- Requiring a `Value` to be a `str` before calling a string method on it;
any other value raises an `AttributeError` (as `None.split(...)` would). -/
def asStr : Value → Except PErr String
  | .vStr s => .ok s
  | _ => .error (.attributeError "value has no attribute split")

/-- Dictionary subscript `d["k"]`: `KeyError` when the key is absent. -/
def getK {α : Type} (k : String) : Option α → Except PErr α
  | some v => .ok v
  | none => .error (.keyError k)

/-! ### The raw Legistar dictionaries (input side) -/

/-- The `PersonInfo` dictionary attached to a vote. -/
structure RawPerson where
  PersonFullName : Option Value
  PersonEmail : Option Value
  PersonPhone : Option Value
  PersonWWW : Option Value
  PersonId : Option Value
deriving DecidableEq, Repr

/-- One entry of `EventItemVoteInfo`. -/
structure RawVote where
  VoteValueName : Option Value
  VoteId : Option Value
  PersonInfo : Option RawPerson
deriving DecidableEq, Repr

/-- One entry of `EventItemMatterAttachments`. -/
structure RawAttachment where
  MatterAttachmentName : Option Value
  MatterAttachmentHyperlink : Option Value
  MatterAttachmentId : Option Value
deriving DecidableEq, Repr

/-- One entry of `EventItems`. -/
structure RawEventItem where
  EventItemMatterName : Option Value
  EventItemTitle : Option Value
  EventItemMatterFile : Option Value
  EventItemMinutesSequence : Option Value
  EventItemId : Option Value
  EventItemPassedFlagName : Option Value
  EventItemMatterAttachments : Option (List RawAttachment)
  EventItemVoteInfo : Option (List RawVote)
deriving DecidableEq, Repr

/-- A full hydrated Legistar event dictionary. -/
structure RawEvent where
  EventId : Option Value
  EventDate : Option Value
  EventTime : Option Value
  EventAgendaFile : Option Value
  EventBodyName : Option Value
  EventInSiteURL : Option Value
  EventMinutesFile : Option Value
  EventItems : Option (List RawEventItem)
deriving DecidableEq, Repr

/-- Replace the `EventItems` slot of an event (all other slots kept). -/
def withItems (ev : RawEvent) (items : List RawEventItem) : RawEvent :=
  ⟨ev.EventId, ev.EventDate, ev.EventTime, ev.EventAgendaFile, ev.EventBodyName,
   ev.EventInSiteURL, ev.EventMinutesFile, some items⟩

/-! ### `datetime.strptime` with format `"%Y-%m-%dT%I:%M %p"` -/

/-- The parsed timestamp (`datetime.strptime` result; seconds are always 0
under this format and are omitted). -/
structure PyDateTime where
  year : Nat
  month : Nat
  day : Nat
  hour : Nat
  minute : Nat
deriving DecidableEq, Repr

/-- Value of a two-digit numeric field. -/
def d2 (a b : Char) : Nat := (a.toNat - 48) * 10 + (b.toNat - 48)

/-- `%Y`: exactly four digits. -/
def parseYear : List Char → Option (Nat × List Char)
  | a :: b :: c :: d :: rest =>
    if a.isDigit ∧ b.isDigit ∧ c.isDigit ∧ d.isDigit then
      some ((a.toNat - 48) * 1000 + (b.toNat - 48) * 100 + (c.toNat - 48) * 10
            + (d.toNat - 48), rest)
    else none
  | _ => none

/-- `%m` and `%I`: the pattern `1[0-2]|0[1-9]|[1-9]` (two digits whose value
is 1..12, else a single digit 1..9). -/
def parseMonthLike : List Char → Option (Nat × List Char)
  | a :: b :: rest =>
    if a.isDigit ∧ b.isDigit ∧ 1 ≤ d2 a b ∧ d2 a b ≤ 12 then some (d2 a b, rest)
    else if a.isDigit ∧ 1 ≤ a.toNat - 48 ∧ a.toNat - 48 ≤ 9 then
      some (a.toNat - 48, b :: rest)
    else none
  | [a] =>
    if a.isDigit ∧ 1 ≤ a.toNat - 48 ∧ a.toNat - 48 ≤ 9 then some (a.toNat - 48, [])
    else none
  | [] => none

/-- `%d`: the pattern `3[01]|[12]\d|0[1-9]|[1-9]` (two digits whose value is
1..31, else a single digit 1..9). -/
def parseDayLike : List Char → Option (Nat × List Char)
  | a :: b :: rest =>
    if a.isDigit ∧ b.isDigit ∧ 1 ≤ d2 a b ∧ d2 a b ≤ 31 then some (d2 a b, rest)
    else if a.isDigit ∧ 1 ≤ a.toNat - 48 ∧ a.toNat - 48 ≤ 9 then
      some (a.toNat - 48, b :: rest)
    else none
  | [a] =>
    if a.isDigit ∧ 1 ≤ a.toNat - 48 ∧ a.toNat - 48 ≤ 9 then some (a.toNat - 48, [])
    else none
  | [] => none

/-- `%M`: the pattern `[0-5]\d|\d` (two digits whose value is 0..59, else a
single digit). -/
def parseMinuteF : List Char → Option (Nat × List Char)
  | a :: b :: rest =>
    if a.isDigit ∧ b.isDigit ∧ d2 a b ≤ 59 then some (d2 a b, rest)
    else if a.isDigit then some (a.toNat - 48, b :: rest)
    else none
  | [a] => if a.isDigit then some (a.toNat - 48, []) else none
  | [] => none

/-- Literal character in the format (letters match case-insensitively since
`_strptime` compiles the format regex with `IGNORECASE`). -/
def expectChar (c : Char) : List Char → Option (List Char)
  | x :: rest => if x = c ∨ x.toLower = c.toLower then some rest else none
  | [] => none

/-- Literal whitespace in the format matches one or more whitespace
characters (`\s+` in the compiled regex). -/
def expectSpaces : List Char → Option (List Char)
  | x :: rest => if x.isWhitespace then some (rest.dropWhile Char.isWhitespace) else none
  | [] => none

/-- `%p`: `AM`/`PM`, case-insensitively; `true` means PM. -/
def parseAmPm : List Char → Option (Bool × List Char)
  | a :: b :: rest =>
    if (a = 'A' ∨ a = 'a') ∧ (b = 'M' ∨ b = 'm') then some (false, rest)
    else if (a = 'P' ∨ a = 'p') ∧ (b = 'M' ∨ b = 'm') then some (true, rest)
    else none
  | _ => none

def isLeapYear (y : Nat) : Bool := (y % 4 = 0 ∧ y % 100 ≠ 0) ∨ y % 400 = 0

def daysInMonth (y m : Nat) : Nat :=
  if m = 2 then (if isLeapYear y then 29 else 28)
  else if m = 4 ∨ m = 6 ∨ m = 9 ∨ m = 11 then 30
  else 31

/-- 12-hour clock to 24-hour clock (`_strptime` conversion for `%I`/`%p`). -/
def to24Hour (h12 : Nat) (pm : Bool) : Nat :=
  if pm then (if h12 = 12 then 12 else h12 + 12)
  else (if h12 = 12 then 0 else h12)

/-- `datetime.strptime(s, "%Y-%m-%dT%I:%M %p")`: `none` when the string does
not match the pattern (including trailing unconverted data, a day out of
range for the month, or a year below `datetime.MINYEAR`). -/
def strptimeYmdIMp (s : String) : Option PyDateTime := do
  let r0 := s.data
  let (y, r1) ← parseYear r0
  let r2 ← expectChar '-' r1
  let (mo, r3) ← parseMonthLike r2
  let r4 ← expectChar '-' r3
  let (d, r5) ← parseDayLike r4
  let r6 ← expectChar 'T' r5
  let (h12, r7) ← parseMonthLike r6
  let r8 ← expectChar ':' r7
  let (mi, r9) ← parseMinuteF r8
  let r10 ← expectSpaces r9
  let (pm, r11) ← parseAmPm r10
  if r11 = [] ∧ 1 ≤ y ∧ d ≤ daysInMonth y mo then
    some ⟨y, mo, d, to24Hour h12 pm, mi⟩
  else none

/-- Python `s.split("T")[0]`: everything before the first `'T'`. -/
def splitT (s : String) : String := String.mk (s.data.takeWhile (fun c => c ≠ 'T'))

/-! ### The canonical (output) records -/

/-- Canonical person record embedded in a vote.  The source copies every
field, including `PersonId`, verbatim (no `int(...)` around `PersonId`). -/
structure Person where
  full_name : Value
  email : Value
  phone : Value
  website : Value
  legistar_person_id : Value
deriving DecidableEq, Repr

/-- Canonical vote record. -/
structure CVote where
  decision : Value
  legistar_event_item_vote_id : Int
  person : Person
deriving DecidableEq, Repr

/-- Canonical attachment record. -/
structure CAttachment where
  name : Value
  uri : Value
  legistar_matter_attachment_id : Int
deriving DecidableEq, Repr

/-- Canonical minutes item.  `decision = none` embeds "the `decision` key was
never assigned"; `decision = some .vNone` embeds an explicit `None`. -/
structure MinutesItem where
  name : Value
  matter : Value
  index : Int
  legistar_event_item_id : Int
  decision : Option Value
  votes : List CVote
  attachments : List CAttachment
deriving DecidableEq, Repr

/-- The canonical event returned by `parse_legistar_event_details`. -/
structure CanonicalEvent where
  agenda_file_uri : Value
  body : Value
  event_datetime : PyDateTime
  minutes_items : List MinutesItem
  legistar_event_id : Int
  legistar_event_link : Value
  minutes_file_uri : Value
deriving DecidableEq, Repr

/-! ### The Normalizer: `parse_legistar_event_details` -/

/-- Effectful map over a list, stopping at the first raised exception (a
Python `for` loop that appends one result per element). -/
def exList {α β : Type} (f : α → Except PErr β) : List α → Except PErr (List β)
  | [] => .ok []
  | x :: xs => do
    let y ← f x
    let ys ← exList f xs
    .ok (y :: ys)

/-- Lines 186-188: split the date at `"T"`, combine with the time field and
parse with `datetime.strptime(_, "%Y-%m-%dT%I:%M %p")`. -/
def officialDT (ev : RawEvent) : Except PErr PyDateTime := do
  let dV ← getK "EventDate" ev.EventDate
  let dS ← asStr dV
  let event_date := splitT dS
  let tV ← getK "EventTime" ev.EventTime
  let dtStr := event_date ++ "T" ++ pyStrOf tV
  match strptimeYmdIMp dtStr with
  | some dt => .ok dt
  | none => .error (.valueError ("time data does not match format: " ++ dtStr))

/-- Lines 194-197: display name is `EventItemMatterName` if truthy, else
`EventItemTitle`. -/
def resolveName (it : RawEventItem) : Except PErr Value := do
  let mn ← getK "EventItemMatterName" it.EventItemMatterName
  if mn.truthy then .ok mn
  else getK "EventItemTitle" it.EventItemTitle

/-- Lines 200-203: matter is `EventItemMatterName` if truthy, else
`EventItemMatterFile`. -/
def resolveMatter (it : RawEventItem) : Except PErr Value := do
  let mn ← getK "EventItemMatterName" it.EventItemMatterName
  if mn.truthy then .ok mn
  else getK "EventItemMatterFile" it.EventItemMatterFile

/-- Line 206: Python `minutes_item_name not in ignore_minutes_items`, where
the resolved name is an arbitrary value and the ignore list holds strings;
`==` between a non-string value and a string is `False`. -/
def ignoreContains (ign : List String) : Value → Bool
  | .vStr s => ign.contains s
  | _ => false

/-- Lines 207-216: read `EventItemMinutesSequence` (a raw subscript: absent
key raises), then `int(...)` it when truthy, else default to `-1`. -/
def resolveIndex (it : RawEventItem) : Except PErr Int := do
  let v ← getK "EventItemMinutesSequence" it.EventItemMinutesSequence
  if v.truthy then pyInt v else .ok (-1)

/-- Lines 228-234: one canonical attachment per raw attachment. -/
def parseAttachment (ra : RawAttachment) : Except PErr CAttachment := do
  let nm ← getK "MatterAttachmentName" ra.MatterAttachmentName
  let url ← getK "MatterAttachmentHyperlink" ra.MatterAttachmentHyperlink
  let idV ← getK "MatterAttachmentId" ra.MatterAttachmentId
  let idI ← pyInt idV
  .ok ⟨nm, url, idI⟩

/-- Lines 240-250: one canonical vote per raw vote; the person sub-record is
copied field by field with no coercion. -/
def parseVote (rv : RawVote) : Except PErr CVote := do
  let dv ← getK "VoteValueName" rv.VoteValueName
  let vIdV ← getK "VoteId" rv.VoteId
  let vId ← pyInt vIdV
  let pi ← getK "PersonInfo" rv.PersonInfo
  let fullName ← getK "PersonFullName" pi.PersonFullName
  let email ← getK "PersonEmail" pi.PersonEmail
  let phone ← getK "PersonPhone" pi.PersonPhone
  let www ← getK "PersonWWW" pi.PersonWWW
  let pid ← getK "PersonId" pi.PersonId
  .ok ⟨dv, vId, ⟨fullName, email, phone, www, pid⟩⟩

/-- Lines 194-259, one iteration of the `EventItems` loop: resolve name and
matter, skip the item when the name is in the ignore list, otherwise build
the minutes item.  `decision` is assigned inside the vote loop (line 251),
so with a truthy passed flag and an empty vote list the key stays absent. -/
def parseItem (ign : List String) (it : RawEventItem) :
    Except PErr (Option MinutesItem) := do
  let nm ← resolveName it
  let mt ← resolveMatter it
  if ignoreContains ign nm then
    .ok none
  else do
    let idx ← resolveIndex it
    let eidV ← getK "EventItemId" it.EventItemId
    let eid ← pyInt eidV
    let atts ← getK "EventItemMatterAttachments" it.EventItemMatterAttachments
    let catts ← exList parseAttachment atts
    let flag ← getK "EventItemPassedFlagName" it.EventItemPassedFlagName
    if flag.truthy then do
      let vis ← getK "EventItemVoteInfo" it.EventItemVoteInfo
      let cvs ← exList parseVote vis
      let dec : Option Value := if vis.isEmpty then none else some flag
      .ok (some ⟨nm, mt, idx, eid, dec, cvs, catts⟩)
    else
      .ok (some ⟨nm, mt, idx, eid, some .vNone, [], catts⟩)

/-- Prepend a produced minutes item; a skipped item contributes nothing. -/
def consOption (r : Option MinutesItem) (rs : List MinutesItem) : List MinutesItem :=
  match r with
  | some mi => mi :: rs
  | none => rs

/-- The `EventItems` loop: process items in order, appending the minutes
items that are not skipped. -/
def parseItems (ign : List String) : List RawEventItem → Except PErr (List MinutesItem)
  | [] => .ok []
  | it :: rest => do
    let r ← parseItem ign it
    let rs ← parseItems ign rest
    .ok (consOption r rs)

/-- Stable insertion by `index`: the new element goes before the first
element whose index is greater than or equal to its own.  Elements already
in the list keep their relative order. -/
def insertByIndex (x : MinutesItem) : List MinutesItem → List MinutesItem
  | [] => [x]
  | y :: ys => if x.index ≤ y.index then x :: y :: ys else y :: insertByIndex x ys

/-- Line 262, `sorted(minutes_items, key=lambda i: i["index"])`: Python's
`sorted` is a stable ascending sort; `sortByIndex` is proved below to be
sorted (`sortByIndex_pairwise`) and stable (`sortByIndex_filter`), the two
properties that determine the function `sorted` computes. -/
def sortByIndex : List MinutesItem → List MinutesItem
  | [] => []
  | x :: xs => insertByIndex x (sortByIndex xs)

/-- Lines 185-275: `parse_legistar_event_details`, the Normalizer. -/
def parse_legistar_event_details (legistar_event_details : RawEvent)
    (ignore_minutes_items : List String) : Except PErr CanonicalEvent := do
  let event_dt ← officialDT legistar_event_details
  let items ← getK "EventItems" legistar_event_details.EventItems
  let pre ← parseItems ignore_minutes_items items
  let minutes_items := sortByIndex pre
  let agenda ← getK "EventAgendaFile" legistar_event_details.EventAgendaFile
  let bodyV ← getK "EventBodyName" legistar_event_details.EventBodyName
  let eidV ← getK "EventId" legistar_event_details.EventId
  let eid ← pyInt eidV
  let link ← getK "EventInSiteURL" legistar_event_details.EventInSiteURL
  let mfile ← getK "EventMinutesFile" legistar_event_details.EventMinutesFile
  .ok ⟨agenda, bodyV, event_dt, minutes_items, eid, link, mfile⟩

/-! ### The Matcher: `get_matching_legistar_event_by_minutes_match` -/

/-- The `selected_event` slot: Python `None`, the empty dictionary `{}`
(zero-candidate sentinel), or an event. -/
inductive Selected where
  | noneSel : Selected
  | emptyDict : Selected
  | event : RawEvent → Selected
deriving DecidableEq, Repr

/-- The result object (lines 24-27). -/
structure AgendaMatchResults where
  selected_event : Selected
  match_scores : List (Value × Nat)
deriving DecidableEq, Repr

/-- Python dictionary assignment `d[k] = v` on an insertion-ordered
association list: an existing key keeps its position, a new key is
appended. -/
def dictInsert : List (Value × Nat) → Value → Nat → List (Value × Nat)
  | [], k, v => [(k, v)]
  | (k0, v0) :: rest, k, v =>
    if k0 = k then (k0, v) :: rest else (k0, v0) :: dictInsert rest k v

/-- Python dictionary lookup `d.get(k)`. -/
def scoresLookup : List (Value × Nat) → Value → Option Nat
  | [], _ => none
  | (k0, v0) :: rest, k => if k0 = k then some v0 else scoresLookup rest k

/-- Lines 144-149: the candidate-side comparison strings, one per event
item: `EventItemMatterName` when truthy, else `EventItemTitle` (raw values,
not lower-cased). -/
def buildNames : List RawEventItem → Except PErr (List Value)
  | [] => .ok []
  | ei :: rest => do
    let mn ← getK "EventItemMatterName" ei.EventItemMatterName
    let v ← if mn.truthy then pure mn else getK "EventItemTitle" ei.EventItemTitle
    let vs ← buildNames rest
    .ok (v :: vs)

/-- The comparison strings of one candidate event. -/
def eventNames (e : RawEvent) : Except PErr (List Value) := do
  let items ← getK "EventItems" e.EventItems
  buildNames items

/-- The similarity score the Matcher computes for one candidate, given the
already lower-cased target strings. -/
def eventScoreL (score : List String → List Value → Nat) (lowered : List String)
    (e : RawEvent) : Except PErr Nat :=
  (eventNames e).map (fun ns => score lowered ns)

/-- The similarity score the Matcher computes for one candidate, given the
original target strings (they are lower-cased first, line 136). -/
def eventScore (score : List String → List Value → Nat) (targets : List String)
    (e : RawEvent) : Except PErr Nat :=
  eventScoreL score (targets.map String.toLower) e

/-- Lines 142-160: the ranking loop.  `max_score` starts at `0.0` and is
only beaten by a strictly greater score. -/
def matchLoop (score : List String → List Value → Nat) (lowered : List String) :
    List RawEvent → Nat → Option RawEvent → List (Value × Nat) →
    Except PErr (Option RawEvent × List (Value × Nat))
  | [], _, sel, scores => .ok (sel, scores)
  | e :: rest, maxS, sel, scores => do
    let ns ← eventNames e
    let s := score lowered ns
    let idv ← getK "EventId" e.EventId
    let scores' := dictInsert scores idv s
    if maxS < s then matchLoop score lowered rest s (some e) scores'
    else matchLoop score lowered rest maxS sel scores'

/-- View an `Option RawEvent` (the loop accumulator) as a `Selected`. -/
def selOf : Option RawEvent → Selected
  | some e => .event e
  | none => .noneSel

/-- Lines 105-165: `get_matching_legistar_event_by_minutes_match`, the
Matcher, parameterised over the external fuzzy-similarity capability. -/
def get_matching_legistar_event_by_minutes_match
    (score : List String → List Value → Nat)
    (minutes_items_provided : List String)
    (legistar_events : List RawEvent) : Except PErr AgendaMatchResults :=
  match legistar_events with
  | [e] =>
    (getK "EventId" e.EventId).map (fun idv => ⟨Selected.event e, [(idv, 100)]⟩)
  | es =>
    if 1 < es.length then
      (matchLoop score (minutes_items_provided.map String.toLower) es 0 none []).map
        (fun r => ⟨selOf r.1, r.2⟩)
    else
      .ok ⟨Selected.emptyDict, []⟩

/-! ### Small rewriting lemmas for the `Except` monad and dictionary access -/

@[simp] theorem ebind_ok {α β : Type} (a : α) (f : α → Except PErr β) :
    (Except.ok a >>= f) = f a := rfl

@[simp] theorem ebind_err {α β : Type} (e : PErr) (f : α → Except PErr β) :
    ((Except.error e : Except PErr α) >>= f) = .error e := rfl

@[simp] theorem emap_ok {α β : Type} (f : α → β) (a : α) :
    (Except.ok a : Except PErr α).map f = .ok (f a) := rfl

@[simp] theorem emap_err {α β : Type} (f : α → β) (e : PErr) :
    (Except.error e : Except PErr α).map f = .error e := rfl

@[simp] theorem getK_some {α : Type} (k : String) (v : α) : getK k (some v) = .ok v := rfl

@[simp] theorem getK_none {α : Type} (k : String) :
    getK k (none : Option α) = .error (.keyError k) := rfl

/-! ### Concrete inputs used by counterexamples and witnesses -/

/-- A raw event with a well-formed date and time and no items slot. -/
def evBase : RawEvent :=
  ⟨some (.vInt 100), some (.vStr "2019-05-01T00:00:00"), some (.vStr "3:00 PM"),
   some .vNone, some (.vStr "City Council"), some .vNone, some .vNone, none⟩

/-- An item with a truthy passed flag and an empty (but present) vote list. -/
def itC1 : RawEventItem :=
  ⟨some (.vStr "Appointment 1"), some (.vStr "Item Title"), some .vNone,
   some (.vInt 1), some (.vInt 9), some (.vStr "Pass"), some [], some []⟩

def evC1 : RawEvent := withItems evBase [itC1]

/-- What the code produces for `evC1`: the lone minutes item has no
`decision` key at all. -/
def c1out : CanonicalEvent :=
  ⟨.vNone, .vStr "City Council", ⟨2019, 5, 1, 15, 0⟩,
   [⟨.vStr "Appointment 1", .vStr "Appointment 1", 1, 9, none, [], []⟩],
   100, .vNone, .vNone⟩

/-- A raw vote whose `PersonId` is supplied as the string `"12"`. -/
def rvC2 : RawVote :=
  ⟨some (.vStr "In Favor"), some (.vStr "33"),
   some ⟨some (.vStr "Jane Roe"), some .vNone, some .vNone, some .vNone,
         some (.vStr "12")⟩⟩

def itC2 : RawEventItem :=
  ⟨some (.vStr "CB 1"), none, none, some (.vInt 1), some (.vInt 9),
   some (.vStr "Pass"), some [], some [rvC2]⟩

def evC2 : RawEvent := withItems evBase [itC2]

/-- What the code produces for `evC2`: vote id `"33"` is coerced to the
integer `33`, but the person id stays the string `"12"`. -/
def c2out : CanonicalEvent :=
  ⟨.vNone, .vStr "City Council", ⟨2019, 5, 1, 15, 0⟩,
   [⟨.vStr "CB 1", .vStr "CB 1", 1, 9, some (.vStr "Pass"),
     [⟨.vStr "In Favor", 33, ⟨.vStr "Jane Roe", .vNone, .vNone, .vNone, .vStr "12"⟩⟩],
     []⟩],
   100, .vNone, .vNone⟩

/-- An item whose `EventItemMinutesSequence` key is absent entirely. -/
def itC3 : RawEventItem :=
  ⟨some (.vStr "A"), none, none, none, none, none, none, none⟩

def evC3 : RawEvent := withItems evBase [itC3]

/-- An item with a minutes-sequence value present. -/
def itSeq3 : RawEventItem :=
  ⟨none, none, none, some (.vInt 3), none, none, none, none⟩

/-- An ignorable item (title matches the ignore list) whose
`EventItemMatterFile` key is absent while its matter name is falsy. -/
def itC7 : RawEventItem :=
  ⟨some .vNone, some (.vStr "Ignored"), none, none, none, none, none, none⟩

def evC7 : RawEvent := withItems evBase [itC7]

/-- Candidate events for the Matcher counterexamples. -/
def mE1 : RawEvent := ⟨some (.vInt 1), none, none, none, none, none, none, some []⟩

def mE2 : RawEvent := ⟨some (.vInt 2), none, none, none, none, none, none, some []⟩

def dupE : RawEvent := ⟨some (.vInt 7), none, none, none, none, none, none, some []⟩

def evSingle : RawEvent := ⟨some (.vInt 4), none, none, none, none, none, none, none⟩

def evNoDate : RawEvent := ⟨none, none, some (.vStr "3:00 PM"), none, none, none, none, none⟩

/-! ### Claim C1 -/

/-- C1: the claim says a truthy `EventItemPassedFlagName` always yields a
`decision` equal to the flag text, also when the raw vote list is empty.
The code assigns `minutes_item["decision"]` inside the vote loop, so on
`evC1` (flag `"Pass"`, empty vote list) the emitted minutes item has no
`decision` at all: the code contradicts the documented intent. -/
theorem C1_code_bug :
    itC1.EventItemPassedFlagName = some (.vStr "Pass") ∧
    (Value.vStr "Pass").truthy = true ∧
    itC1.EventItemVoteInfo = some [] ∧
    parse_legistar_event_details evC1 [] = .ok c1out ∧
    c1out.minutes_items.map MinutesItem.decision = [none] :=
  ⟨rfl, rfl, rfl, rfl, rfl⟩

/-! ### Claim C9 -/

/-- C9: with exactly one candidate, the Matcher returns that candidate with
the score map `[(its id, 100)]`, and the similarity capability is never
consulted (the result does not depend on the score function at all). -/
theorem C9_confirmed (score : List String → List Value → Nat)
    (targets : List String) (e : RawEvent) (idv : Value)
    (h : e.EventId = some idv) :
    get_matching_legistar_event_by_minutes_match score targets [e] =
      .ok ⟨Selected.event e, [(idv, 100)]⟩ ∧
    ∀ score2 : List String → List Value → Nat,
      get_matching_legistar_event_by_minutes_match score2 targets [e] =
        get_matching_legistar_event_by_minutes_match score targets [e] := by
  constructor
  · simp [get_matching_legistar_event_by_minutes_match, h]
  · intro score2
    rfl

theorem C9_witness :
    get_matching_legistar_event_by_minutes_match (fun _ _ => 0) ["a"] [evSingle] =
      .ok ⟨Selected.event evSingle, [(.vInt 4, 100)]⟩ :=
  (C9_confirmed (fun _ _ => 0) ["a"] evSingle (.vInt 4) rfl).1

/-! ### Claim C3 -/

/-- C3 (counterexample to the claim as stated): when the
`EventItemMinutesSequence` key is absent from the item, normalization does
not default the index to `-1`; the raw subscript on line 209 raises a
`KeyError` and the whole call fails. -/
theorem C3_counterexample :
    parse_legistar_event_details evC3 [] =
      .error (.keyError "EventItemMinutesSequence") := rfl

/-! ### Claim C2 -/

/-- C2 (counterexample to the claim as stated): on `evC2` the upstream
`PersonId` is the string `"12"`; the code copies it verbatim (line 248 has
no `int(...)`), so the canonical `legistar_person_id` is not an integer. -/
theorem C2_counterexample :
    parse_legistar_event_details evC2 [] = .ok c2out ∧
    c2out.minutes_items.map
        (fun mi => mi.votes.map (fun v => v.person.legistar_person_id)) =
      [[Value.vStr "12"]] ∧
    Value.isInt (Value.vStr "12") = false :=
  ⟨rfl, rfl, rfl⟩

/-- Inversion of a successful `Except` bind. -/
theorem bind_ok_inv {α β : Type} {m : Except PErr α} {f : α → Except PErr β} {b : β}
    (h : (m >>= f) = .ok b) : ∃ a, m = .ok a ∧ f a = .ok b := by
  cases m with
  | ok a => exact ⟨a, rfl, h⟩
  | error e => simp at h

/-- Inversion of a successful dictionary access. -/
theorem getK_ok_inv {α : Type} {k : String} {o : Option α} {a : α}
    (h : getK k o = .ok a) : o = some a := by
  cases o with
  | some v =>
    simp only [getK_some, Except.ok.injEq] at h
    rw [h]
  | none => simp at h

/-- Everything a successful `parseVote` tells us about the raw vote. -/
theorem parseVote_ok_inv {rv : RawVote} {cv : CVote} (h : parseVote rv = .ok cv) :
    ∃ dv rawVid vId pi fn em ph ww pid,
      rv.VoteValueName = some dv ∧ rv.VoteId = some rawVid ∧
      pyInt rawVid = .ok vId ∧ rv.PersonInfo = some pi ∧
      pi.PersonFullName = some fn ∧ pi.PersonEmail = some em ∧
      pi.PersonPhone = some ph ∧ pi.PersonWWW = some ww ∧
      pi.PersonId = some pid ∧
      cv = ⟨dv, vId, ⟨fn, em, ph, ww, pid⟩⟩ := by
  unfold parseVote at h
  obtain ⟨dv, h1, h⟩ := bind_ok_inv h
  obtain ⟨rawVid, h2, h⟩ := bind_ok_inv h
  obtain ⟨vId, h3, h⟩ := bind_ok_inv h
  obtain ⟨pi, h4, h⟩ := bind_ok_inv h
  obtain ⟨fn, h5, h⟩ := bind_ok_inv h
  obtain ⟨em, h6, h⟩ := bind_ok_inv h
  obtain ⟨ph, h7, h⟩ := bind_ok_inv h
  obtain ⟨ww, h8, h⟩ := bind_ok_inv h
  obtain ⟨pid, h9, h⟩ := bind_ok_inv h
  exact ⟨dv, rawVid, vId, pi, fn, em, ph, ww, pid,
    getK_ok_inv h1, getK_ok_inv h2, h3, getK_ok_inv h4, getK_ok_inv h5,
    getK_ok_inv h6, getK_ok_inv h7, getK_ok_inv h8, getK_ok_inv h9,
    (Except.ok.injEq _ _ ▸ h).symm⟩

/-- Everything a successful `parseAttachment` tells us. -/
theorem parseAttachment_ok_inv {ra : RawAttachment} {ca : CAttachment}
    (h : parseAttachment ra = .ok ca) :
    ∃ nm url rawAid aId,
      ra.MatterAttachmentName = some nm ∧
      ra.MatterAttachmentHyperlink = some url ∧
      ra.MatterAttachmentId = some rawAid ∧ pyInt rawAid = .ok aId ∧
      ca = ⟨nm, url, aId⟩ := by
  unfold parseAttachment at h
  obtain ⟨nm, h1, h⟩ := bind_ok_inv h
  obtain ⟨url, h2, h⟩ := bind_ok_inv h
  obtain ⟨rawAid, h3, h⟩ := bind_ok_inv h
  obtain ⟨aId, h4, h⟩ := bind_ok_inv h
  exact ⟨nm, url, rawAid, aId, getK_ok_inv h1, getK_ok_inv h2, getK_ok_inv h3, h4,
    (Except.ok.injEq _ _ ▸ h).symm⟩

/-- Everything a successful `parse_legistar_event_details` tells us about
the raw event and the shape of the output. -/
theorem parse_ok_inv {ev : RawEvent} {ign : List String} {out : CanonicalEvent}
    (h : parse_legistar_event_details ev ign = .ok out) :
    ∃ dt items pre agenda bodyV rawEid eid link mfile,
      officialDT ev = .ok dt ∧ ev.EventItems = some items ∧
      parseItems ign items = .ok pre ∧
      ev.EventAgendaFile = some agenda ∧ ev.EventBodyName = some bodyV ∧
      ev.EventId = some rawEid ∧ pyInt rawEid = .ok eid ∧
      ev.EventInSiteURL = some link ∧ ev.EventMinutesFile = some mfile ∧
      out = ⟨agenda, bodyV, dt, sortByIndex pre, eid, link, mfile⟩ := by
  unfold parse_legistar_event_details at h
  obtain ⟨dt, h1, h⟩ := bind_ok_inv h
  obtain ⟨items, h2, h⟩ := bind_ok_inv h
  obtain ⟨pre, h3, h⟩ := bind_ok_inv h
  obtain ⟨agenda, h4, h⟩ := bind_ok_inv h
  obtain ⟨bodyV, h5, h⟩ := bind_ok_inv h
  obtain ⟨rawEid, h6, h⟩ := bind_ok_inv h
  obtain ⟨eid, h7, h⟩ := bind_ok_inv h
  obtain ⟨link, h8, h⟩ := bind_ok_inv h
  obtain ⟨mfile, h9, h⟩ := bind_ok_inv h
  exact ⟨dt, items, pre, agenda, bodyV, rawEid, eid, link, mfile,
    h1, getK_ok_inv h2, h3, getK_ok_inv h4, getK_ok_inv h5, getK_ok_inv h6, h7,
    getK_ok_inv h8, getK_ok_inv h9, (Except.ok.injEq _ _ ▸ h).symm⟩

/-- Everything a successful, non-skipping `parseItem` tells us about the
raw item and the emitted minutes item (the vote/decision part is settled
separately, see C1). -/
theorem parseItem_ok_some_inv {ign : List String} {it : RawEventItem}
    {mi : MinutesItem} (h : parseItem ign it = .ok (some mi)) :
    ∃ nm mt idx rawIid iid atts catts flag,
      resolveName it = .ok nm ∧ resolveMatter it = .ok mt ∧
      ignoreContains ign nm = false ∧
      resolveIndex it = .ok idx ∧
      it.EventItemId = some rawIid ∧ pyInt rawIid = .ok iid ∧
      it.EventItemMatterAttachments = some atts ∧
      exList parseAttachment atts = .ok catts ∧
      it.EventItemPassedFlagName = some flag ∧
      mi.name = nm ∧ mi.matter = mt ∧ mi.index = idx ∧
      mi.legistar_event_item_id = iid ∧ mi.attachments = catts := by
  unfold parseItem at h
  obtain ⟨nm, h1, h⟩ := bind_ok_inv h
  obtain ⟨mt, h2, h⟩ := bind_ok_inv h
  cases hig : ignoreContains ign nm with
  | true =>
    rw [if_pos hig] at h
    simp at h
  | false =>
    rw [if_neg (show ¬ignoreContains ign nm = true by rw [hig]; simp)] at h
    obtain ⟨idx, h3, h⟩ := bind_ok_inv h
    obtain ⟨eidV, h4, h⟩ := bind_ok_inv h
    obtain ⟨eid, h5, h⟩ := bind_ok_inv h
    obtain ⟨atts, h6, h⟩ := bind_ok_inv h
    obtain ⟨catts, h7, h⟩ := bind_ok_inv h
    obtain ⟨flag, h8, h⟩ := bind_ok_inv h
    cases hf : flag.truthy with
    | true =>
      rw [if_pos (show flag.truthy = true by rw [hf])] at h
      obtain ⟨vis, h9, h⟩ := bind_ok_inv h
      obtain ⟨cvs, h10, h⟩ := bind_ok_inv h
      injection h with h
      injection h with h
      subst h
      exact ⟨nm, mt, idx, eidV, eid, atts, catts, flag, h1, h2, hig, h3,
        getK_ok_inv h4, h5, getK_ok_inv h6, h7, getK_ok_inv h8,
        rfl, rfl, rfl, rfl, rfl⟩
    | false =>
      rw [if_neg (show ¬flag.truthy = true by rw [hf]; simp)] at h
      injection h with h
      injection h with h
      subst h
      exact ⟨nm, mt, idx, eidV, eid, atts, catts, flag, h1, h2, hig, h3,
        getK_ok_inv h4, h5, getK_ok_inv h6, h7, getK_ok_inv h8,
        rfl, rfl, rfl, rfl, rfl⟩

/-- The minutes item the code emits for `itC1` (also the sole item of
`c1out`). -/
def c1mi : MinutesItem :=
  ⟨.vStr "Appointment 1", .vStr "Appointment 1", 1, 9, none, [], []⟩

/-- C3 (amended): `index` is the integer coercion of the minutes-sequence
value when that value is present and truthy, and `-1` when it is present
but falsy — in both cases the index resolution succeeds and the emitted
minutes item carries exactly that index; when the key is absent from the
item, the raw subscript fails with a `KeyError` and processing the item
(hence the whole normalization, see `C3_counterexample`) aborts instead of
defaulting. -/
theorem C3_amended (ign : List String) (it : RawEventItem) :
    (∀ v, it.EventItemMinutesSequence = some v → v.truthy = true →
      resolveIndex it = pyInt v) ∧
    (∀ v, it.EventItemMinutesSequence = some v → v.truthy = false →
      resolveIndex it = .ok (-1)) ∧
    (it.EventItemMinutesSequence = none →
      resolveIndex it = .error (.keyError "EventItemMinutesSequence")) ∧
    (∀ v mi, it.EventItemMinutesSequence = some v → v.truthy = true →
      parseItem ign it = .ok (some mi) → pyInt v = .ok mi.index) ∧
    (∀ v mi, it.EventItemMinutesSequence = some v → v.truthy = false →
      parseItem ign it = .ok (some mi) → mi.index = -1) ∧
    (∀ nm mt, resolveName it = .ok nm → resolveMatter it = .ok mt →
      ignoreContains ign nm = false → it.EventItemMinutesSequence = none →
      parseItem ign it = .error (.keyError "EventItemMinutesSequence")) := by
  refine ⟨?_, ?_, ?_, ?_, ?_, ?_⟩
  · intro v hv ht
    simp [resolveIndex, hv, ht]
  · intro v hv ht
    simp [resolveIndex, hv, ht]
  · intro h
    simp [resolveIndex, h]
  · intro v mi hv ht hp
    obtain ⟨nm, mt, idx, rawIid, iid, atts, catts, flag, q1, q2, q3, q4, q5,
      q6, q7, q8, q9, e1, e2, e3, e4, e5⟩ := parseItem_ok_some_inv hp
    have hA : resolveIndex it = pyInt v := by simp [resolveIndex, hv, ht]
    rw [hA] at q4
    rw [e3]
    exact q4
  · intro v mi hv ht hp
    obtain ⟨nm, mt, idx, rawIid, iid, atts, catts, flag, q1, q2, q3, q4, q5,
      q6, q7, q8, q9, e1, e2, e3, e4, e5⟩ := parseItem_ok_some_inv hp
    have hB : resolveIndex it = .ok (-1) := by simp [resolveIndex, hv, ht]
    rw [hB] at q4
    injection q4 with q4
    rw [e3, ← q4]
  · intro nm mt hn hm hig hnone
    have hC : resolveIndex it = .error (.keyError "EventItemMinutesSequence") := by
      simp [resolveIndex, hnone]
    unfold parseItem
    rw [hn]
    simp only [ebind_ok]
    rw [hm]
    simp only [ebind_ok]
    rw [if_neg (show ¬ignoreContains ign nm = true by rw [hig]; simp)]
    rw [hC]
    simp

theorem C3_witness :
    resolveIndex itSeq3 = .ok 3 ∧ pyInt (.vInt 1) = .ok c1mi.index :=
  ⟨((C3_amended [] itSeq3).1 (.vInt 3) rfl rfl).trans rfl,
   (C3_amended [] itC1).2.2.2.1 (.vInt 1) c1mi rfl rfl rfl⟩

/-- C2 (amended): the event, minutes-item, attachment and vote identifiers
are integer-coerced (`int(...)`) even when supplied as strings, but the
embedded person's `legistar_person_id` is copied through unchanged from the
upstream `PersonId` value, with no coercion. -/
theorem C2_amended (rv : RawVote) (pi : RawPerson) (ra : RawAttachment)
    (ev : RawEvent) (ign ign2 : List String) (out : CanonicalEvent)
    (it : RawEventItem) (mi : MinutesItem)
    (rawVid rawPid rawAid rawEid rawIid : Value) (cv : CVote) (ca : CAttachment)
    (hvi : rv.VoteId = some rawVid) (hpi : rv.PersonInfo = some pi)
    (hpid : pi.PersonId = some rawPid)
    (hai : ra.MatterAttachmentId = some rawAid)
    (heid : ev.EventId = some rawEid)
    (hiid : it.EventItemId = some rawIid)
    (hv : parseVote rv = .ok cv) (ha : parseAttachment ra = .ok ca)
    (hp : parse_legistar_event_details ev ign = .ok out)
    (hmi : parseItem ign2 it = .ok (some mi)) :
    pyInt rawVid = .ok cv.legistar_event_item_vote_id ∧
    cv.person.legistar_person_id = rawPid ∧
    pyInt rawAid = .ok ca.legistar_matter_attachment_id ∧
    pyInt rawEid = .ok out.legistar_event_id ∧
    pyInt rawIid = .ok mi.legistar_event_item_id := by
  obtain ⟨dv, rawVid', vId, pi', fn, em, ph, ww, pid, g1, g2, g3, g4, g5, g6,
    g7, g8, g9, gcv⟩ := parseVote_ok_inv hv
  obtain ⟨nm, url, rawAid', aId, a1, a2, a3, a4, gca⟩ := parseAttachment_ok_inv ha
  obtain ⟨dt, items, pre, agenda, bodyV, rawEid', eid, link, mfile,
    p1, p2, p3, p4, p5, p6, p7, p8, p9, gout⟩ := parse_ok_inv hp
  obtain ⟨nm2, mt2, idx2, rawIid', iid2, atts2, catts2, flag2, r1, r2, r3, r4,
    r5, r6, r7, r8, r9, s1, s2, s3, s4, s5⟩ := parseItem_ok_some_inv hmi
  rw [hvi] at g2
  rw [hpi] at g4
  cases g2
  cases g4
  rw [hpid] at g9
  cases g9
  rw [hai] at a3
  cases a3
  rw [heid] at p6
  cases p6
  rw [hiid] at r5
  cases r5
  subst gcv
  subst gca
  subst gout
  rw [s4]
  exact ⟨g3, rfl, a4, p7, r6⟩

/-- A concrete instantiation of `C2_amended`: vote id `"7"` and attachment
id `"5"` are coerced to integers, person id `"9"` is passed through. -/
def rvW : RawVote :=
  ⟨some (.vStr "Yes"), some (.vStr "7"),
   some ⟨some (.vStr "A"), some .vNone, some .vNone, some .vNone, some (.vStr "9")⟩⟩

def piW : RawPerson :=
  ⟨some (.vStr "A"), some .vNone, some .vNone, some .vNone, some (.vStr "9")⟩

def raW : RawAttachment := ⟨some (.vStr "Doc"), some (.vStr "u"), some (.vStr "5")⟩

def cvW : CVote := ⟨.vStr "Yes", 7, ⟨.vStr "A", .vNone, .vNone, .vNone, .vStr "9"⟩⟩

def caW : CAttachment := ⟨.vStr "Doc", .vStr "u", 5⟩

/-- An event item whose `EventItemId` is supplied as the string `"9"`. -/
def itIdStr : RawEventItem :=
  ⟨some (.vStr "CB 2"), none, none, some (.vInt 1), some (.vStr "9"),
   some .vNone, some [], none⟩

/-- The minutes item the code emits for `itIdStr`: the id is the integer 9. -/
def miW : MinutesItem := ⟨.vStr "CB 2", .vStr "CB 2", 1, 9, some .vNone, [], []⟩

theorem C2_witness :
    pyInt (.vStr "7") = .ok cvW.legistar_event_item_vote_id ∧
    cvW.person.legistar_person_id = .vStr "9" ∧
    pyInt (.vStr "5") = .ok caW.legistar_matter_attachment_id ∧
    pyInt (.vInt 100) = .ok c1out.legistar_event_id ∧
    pyInt (.vStr "9") = .ok miW.legistar_event_item_id :=
  C2_amended rvW piW raW evC1 [] [] c1out itIdStr miW (.vStr "7") (.vStr "9")
    (.vStr "5") (.vInt 100) (.vStr "9") cvW caW rfl rfl rfl rfl rfl rfl rfl
    rfl rfl rfl

/-! ### Claim C7 -/

theorem parseItems_cons (ign : List String) (it : RawEventItem)
    (rest : List RawEventItem) :
    parseItems ign (it :: rest) =
      (parseItem ign it) >>= (fun r =>
        (parseItems ign rest) >>= (fun rs => Except.ok (consOption r rs))) := rfl

@[simp] theorem withItems_EventItems (ev : RawEvent) (l : List RawEventItem) :
    (withItems ev l).EventItems = some l := rfl

@[simp] theorem withItems_EventAgendaFile (ev : RawEvent) (l : List RawEventItem) :
    (withItems ev l).EventAgendaFile = ev.EventAgendaFile := rfl

@[simp] theorem withItems_EventBodyName (ev : RawEvent) (l : List RawEventItem) :
    (withItems ev l).EventBodyName = ev.EventBodyName := rfl

@[simp] theorem withItems_EventId (ev : RawEvent) (l : List RawEventItem) :
    (withItems ev l).EventId = ev.EventId := rfl

@[simp] theorem withItems_EventInSiteURL (ev : RawEvent) (l : List RawEventItem) :
    (withItems ev l).EventInSiteURL = ev.EventInSiteURL := rfl

@[simp] theorem withItems_EventMinutesFile (ev : RawEvent) (l : List RawEventItem) :
    (withItems ev l).EventMinutesFile = ev.EventMinutesFile := rfl

/-- The timestamp step never looks at the items. -/
@[simp] theorem officialDT_withItems (ev : RawEvent) (l : List RawEventItem) :
    officialDT (withItems ev l) = officialDT ev := rfl

/-- Processing one item whose resolved name is ignored (and whose name and
matter both resolve) contributes nothing: the item can be deleted from any
position of the item list without changing the result of the loop. -/
theorem parseItems_middle (ign : List String) (item : RawEventItem)
    (post : List RawEventItem) (nm : Value) (hn : resolveName item = .ok nm)
    (hin : ignoreContains ign nm = true) (mv : Value)
    (hm : resolveMatter item = .ok mv) :
    ∀ pre, parseItems ign (pre ++ item :: post) = parseItems ign (pre ++ post) := by
  have hpi : parseItem ign item = .ok none := by
    unfold parseItem
    rw [hn]
    simp only [ebind_ok]
    rw [hm]
    simp only [ebind_ok, hin]
    simp
  intro pre
  induction pre with
  | nil =>
    show parseItems ign (item :: post) = parseItems ign post
    rw [parseItems_cons, hpi]
    simp only [ebind_ok]
    cases hps : parseItems ign post with
    | ok rs => simp [hps, consOption]
    | error e => simp [hps]
  | cons p ps ih =>
    show parseItems ign (p :: (ps ++ item :: post)) = parseItems ign (p :: (ps ++ post))
    simp only [parseItems_cons, ih]

/-- C7 (amended): an event item whose resolved display name is in the
ignore list is skipped and leaves the output of normalization unchanged —
provided its matter resolution also succeeds.  (The code resolves `name`
and `matter` before the ignore check, so an ignorable item can still abort
the call; see `C7_counterexample`.) -/
theorem C7_amended (ev : RawEvent) (ign : List String) (item : RawEventItem)
    (pre post : List RawEventItem) (nm : Value)
    (hn : resolveName item = .ok nm) (hin : ignoreContains ign nm = true)
    (hm : ∃ mv, resolveMatter item = .ok mv) :
    parse_legistar_event_details (withItems ev (pre ++ item :: post)) ign =
      parse_legistar_event_details (withItems ev (pre ++ post)) ign := by
  obtain ⟨mv, hm⟩ := hm
  have h := parseItems_middle ign item post nm hn hin mv hm pre
  unfold parse_legistar_event_details
  simp only [officialDT_withItems, withItems_EventItems, withItems_EventAgendaFile,
    withItems_EventBodyName, withItems_EventId, withItems_EventInSiteURL,
    withItems_EventMinutesFile, getK_some, ebind_ok, h]

/-- An item that survives normalization. -/
def keepItem : RawEventItem :=
  ⟨some (.vStr "Keep"), none, none, some (.vInt 1), some (.vInt 8),
   some .vNone, some [], none⟩

/-- An item whose resolved display name is `"Skip"`. -/
def skipItem : RawEventItem :=
  ⟨some (.vStr "Skip"), none, none, none, none, none, none, none⟩

theorem C7_witness :
    parse_legistar_event_details (withItems evBase [skipItem, keepItem]) ["Skip"] =
      parse_legistar_event_details (withItems evBase [keepItem]) ["Skip"] :=
  C7_amended evBase ["Skip"] skipItem [] [keepItem] (.vStr "Skip") rfl rfl
    ⟨.vStr "Skip", rfl⟩

/-- C7 (counterexample to the claim as stated): `itC7`'s resolved display
name is `"Ignored"`, which is in the ignore list, yet its presence changes
the outcome: name and matter are resolved before the ignore check (lines
194-203), and `itC7` has a falsy matter name and no `EventItemMatterFile`
key, so the whole normalization aborts with a `KeyError` instead of
skipping the item. -/
theorem C7_counterexample :
    resolveName itC7 = .ok (.vStr "Ignored") ∧
    ignoreContains ["Ignored"] (.vStr "Ignored") = true ∧
    parse_legistar_event_details evC7 ["Ignored"] =
      .error (.keyError "EventItemMatterFile") ∧
    parse_legistar_event_details (withItems evBase []) ["Ignored"] =
      .ok ⟨.vNone, .vStr "City Council", ⟨2019, 5, 1, 15, 0⟩, [], 100, .vNone, .vNone⟩ :=
  ⟨rfl, rfl, rfl, rfl⟩

/-! ### Claim C8 -/

/-- A failure of the timestamp step aborts the whole normalization. -/
theorem parse_err_of_officialDT {ev : RawEvent} {ign : List String} {e : PErr}
    (h : officialDT ev = .error e) :
    parse_legistar_event_details ev ign = .error e := by
  unfold parse_legistar_event_details
  rw [h]
  simp

/-- C8: a missing `EventDate`, a missing `EventTime`, a present `EventDate`
that is not a string (so `None.split` and friends raise), or a combined
date/time string that does not match `"%Y-%m-%dT%I:%M %p"` makes the whole
normalization call fail with an error — no partial canonical event is
produced in any of these cases. -/
theorem C8_confirmed (ev : RawEvent) (ign : List String) :
    (ev.EventDate = none →
      parse_legistar_event_details ev ign = .error (.keyError "EventDate")) ∧
    (ev.EventTime = none →
      ∃ e, parse_legistar_event_details ev ign = .error e) ∧
    (∀ dV, ev.EventDate = some dV → (∀ s, dV ≠ Value.vStr s) →
      parse_legistar_event_details ev ign =
        .error (.attributeError "value has no attribute split")) ∧
    (∀ dS tV, ev.EventDate = some (.vStr dS) → ev.EventTime = some tV →
      strptimeYmdIMp (splitT dS ++ "T" ++ pyStrOf tV) = none →
      parse_legistar_event_details ev ign =
        .error (.valueError
          ("time data does not match format: " ++ (splitT dS ++ "T" ++ pyStrOf tV)))) := by
  refine ⟨?_, ?_, ?_, ?_⟩
  · intro hd
    exact parse_err_of_officialDT (by simp [officialDT, hd])
  · intro ht
    cases hd : ev.EventDate with
    | none =>
      have h : officialDT ev = .error (.keyError "EventDate") := by
        simp [officialDT, hd]
      exact ⟨_, parse_err_of_officialDT h⟩
    | some v =>
      cases v with
      | vStr s =>
        have h : officialDT ev = .error (.keyError "EventTime") := by
          simp [officialDT, hd, ht, asStr]
        exact ⟨_, parse_err_of_officialDT h⟩
      | vNone =>
        have h : officialDT ev = .error (.attributeError "value has no attribute split") := by
          simp [officialDT, hd, asStr]
        exact ⟨_, parse_err_of_officialDT h⟩
      | vBool b =>
        have h : officialDT ev = .error (.attributeError "value has no attribute split") := by
          simp [officialDT, hd, asStr]
        exact ⟨_, parse_err_of_officialDT h⟩
      | vInt n =>
        have h : officialDT ev = .error (.attributeError "value has no attribute split") := by
          simp [officialDT, hd, asStr]
        exact ⟨_, parse_err_of_officialDT h⟩
  · intro dV hd hns
    cases dV with
    | vStr s => exact absurd rfl (hns s)
    | vNone =>
      exact parse_err_of_officialDT (by simp [officialDT, hd, asStr])
    | vBool b =>
      exact parse_err_of_officialDT (by simp [officialDT, hd, asStr])
    | vInt n =>
      exact parse_err_of_officialDT (by simp [officialDT, hd, asStr])
  · intro dS tV hd ht hs
    refine parse_err_of_officialDT ?_
    unfold officialDT
    rw [hd]
    simp only [getK_some, ebind_ok, asStr]
    rw [ht]
    simp only [getK_some, ebind_ok, hs]

/-- An event whose `EventDate` key is present but holds `None`, with a
well-formed time. -/
def evNullDate : RawEvent :=
  ⟨none, some .vNone, some (.vStr "3:00 PM"), none, none, none, none, none⟩

theorem C8_witness :
    parse_legistar_event_details evNoDate [] = .error (.keyError "EventDate") ∧
    parse_legistar_event_details evNullDate [] =
      .error (.attributeError "value has no attribute split") :=
  ⟨(C8_confirmed evNoDate []).1 rfl,
   (C8_confirmed evNullDate []).2.2.1 .vNone rfl (fun _ h => Value.noConfusion h)⟩

/-! ### Claim C6 -/

/-- Inserting only splices the new element in: the result is a permutation
of prepending it. -/
theorem insertByIndex_perm (x : MinutesItem) :
    ∀ l : List MinutesItem, List.Perm (insertByIndex x l) (x :: l) := by
  intro l
  induction l with
  | nil => simp [insertByIndex]
  | cons y ys ih =>
    by_cases hc : x.index ≤ y.index
    · simp [insertByIndex, hc]
    · simp only [insertByIndex, if_neg hc]
      exact (List.Perm.cons y ih).trans (List.Perm.swap x y ys)

/-- Insertion preserves sortedness by `index`. -/
theorem pairwise_insertByIndex {x : MinutesItem} :
    ∀ {l : List MinutesItem},
      List.Pairwise (fun a b => a.index ≤ b.index) l →
      List.Pairwise (fun a b => a.index ≤ b.index) (insertByIndex x l) := by
  intro l
  induction l with
  | nil =>
    intro _
    simp [insertByIndex]
  | cons y ys ih =>
    intro h
    rw [List.pairwise_cons] at h
    obtain ⟨hy, hys⟩ := h
    by_cases hc : x.index ≤ y.index
    · simp only [insertByIndex, if_pos hc]
      refine List.Pairwise.cons ?_ (List.Pairwise.cons hy hys)
      intro z hz
      rcases List.mem_cons.mp hz with rfl | hz'
      · exact hc
      · exact le_trans hc (hy z hz')
    · simp only [insertByIndex, if_neg hc]
      refine List.Pairwise.cons ?_ (ih hys)
      intro z hz
      rcases List.mem_cons.mp ((insertByIndex_perm x ys).mem_iff.mp hz) with rfl | hz'
      · exact le_of_lt (not_le.mp hc)
      · exact hy z hz'

/-- The sort output is ascending in `index`. -/
theorem sortByIndex_pairwise :
    ∀ l : List MinutesItem,
      List.Pairwise (fun a b => a.index ≤ b.index) (sortByIndex l) := by
  intro l
  induction l with
  | nil => simp [sortByIndex]
  | cons x xs ih => exact pairwise_insertByIndex ih

/-- Insertion goes before the first element of greater-or-equal index, so
the sublist of any fixed index value is extended at the front exactly when
the new element carries that index. -/
theorem filter_insertByIndex (k : Int) (x : MinutesItem) :
    ∀ l : List MinutesItem,
      (insertByIndex x l).filter (fun z => z.index == k) =
        if x.index = k then x :: l.filter (fun z => z.index == k)
        else l.filter (fun z => z.index == k) := by
  intro l
  induction l with
  | nil =>
    by_cases hx : x.index = k <;> simp [insertByIndex, hx]
  | cons y ys ih =>
    by_cases hc : x.index ≤ y.index
    · simp only [insertByIndex, if_pos hc]
      by_cases hx : x.index = k <;> by_cases hy : y.index = k <;>
        simp [List.filter_cons, hx, hy]
    · have hyx : y.index < x.index := not_le.mp hc
      simp only [insertByIndex, if_neg hc]
      by_cases hx : x.index = k <;> by_cases hy : y.index = k
      · omega
      · simp [List.filter_cons, hx, hy, ih]
      · simp [List.filter_cons, hx, hy, ih]
      · simp [List.filter_cons, hx, hy, ih]

/-- Stability: the sort preserves, in order, the sublist of items having
any given index value. -/
theorem sortByIndex_filter (k : Int) :
    ∀ l : List MinutesItem,
      (sortByIndex l).filter (fun z => z.index == k) =
        l.filter (fun z => z.index == k) := by
  intro l
  induction l with
  | nil => rfl
  | cons x xs ih =>
    by_cases hx : x.index = k <;>
      simp [sortByIndex, filter_insertByIndex, hx, ih, List.filter_cons]

/-- C6: the output `minutes_items` is sorted non-decreasing by `index`, and
for every index value the sublist of items carrying it is exactly (and in
the same order as) the corresponding sublist of the pre-sort item sequence,
i.e. items with equal index keep their relative input order. -/
theorem C6_confirmed (ev : RawEvent) (ign : List String) (out : CanonicalEvent)
    (h : parse_legistar_event_details ev ign = .ok out) :
    List.Pairwise (fun a b => a.index ≤ b.index) out.minutes_items ∧
    ∀ items pre, ev.EventItems = some items → parseItems ign items = .ok pre →
      ∀ k : Int, out.minutes_items.filter (fun mi => mi.index == k) =
        pre.filter (fun mi => mi.index == k) := by
  obtain ⟨dt, items0, pre0, agenda, bodyV, rawEid, eid, link, mfile,
    p1, p2, p3, p4, p5, p6, p7, p8, p9, gout⟩ := parse_ok_inv h
  subst gout
  constructor
  · exact sortByIndex_pairwise pre0
  · intro items pre hitems hpre k
    rw [p2] at hitems
    injection hitems with h2
    subst h2
    rw [p3] at hpre
    injection hpre with h3
    subst h3
    exact sortByIndex_filter k pre0

/-- Items supplied with indices 2 then 1. -/
def itIdx2 : RawEventItem :=
  ⟨some (.vStr "B2"), none, none, some (.vInt 2), some (.vInt 21),
   some .vNone, some [], none⟩

def itIdx1 : RawEventItem :=
  ⟨some (.vStr "B1"), none, none, some (.vInt 1), some (.vInt 22),
   some .vNone, some [], none⟩

def evC6 : RawEvent := withItems evBase [itIdx2, itIdx1]

/-- The accumulated (pre-sort) minutes items of `evC6`, in input order. -/
def c6pre : List MinutesItem :=
  [⟨.vStr "B2", .vStr "B2", 2, 21, some .vNone, [], []⟩,
   ⟨.vStr "B1", .vStr "B1", 1, 22, some .vNone, [], []⟩]

/-- The output for `evC6`: index 1 before index 2. -/
def c6out : CanonicalEvent :=
  ⟨.vNone, .vStr "City Council", ⟨2019, 5, 1, 15, 0⟩,
   [⟨.vStr "B1", .vStr "B1", 1, 22, some .vNone, [], []⟩,
    ⟨.vStr "B2", .vStr "B2", 2, 21, some .vNone, [], []⟩],
   100, .vNone, .vNone⟩

theorem C6_witness :
    List.Pairwise (fun a b : MinutesItem => a.index ≤ b.index) c6out.minutes_items ∧
    c6out.minutes_items.filter (fun mi => mi.index == (1 : Int)) =
      c6pre.filter (fun mi => mi.index == (1 : Int)) :=
  ⟨(C6_confirmed evC6 [] c6out rfl).1,
   (C6_confirmed evC6 [] c6out rfl).2 [itIdx2, itIdx1] c6pre rfl rfl 1⟩

/-! ### Matcher analysis: reference functions and basic lemmas -/

/-- The `EventId` values of a candidate list (all present), in order. -/
def eventIds : List RawEvent → Option (List Value)
  | [] => some []
  | e :: rest => e.EventId.bind (fun i => (eventIds rest).map (fun is => i :: is))

/-- Maximum of a list of scores (`0` for the empty list, matching the
loop's `max_score = 0.0` initialisation). -/
def listMax (l : List Nat) : Nat := l.foldr max 0

/-- Index of the first occurrence of `m` (length of the list if absent). -/
def firstIdx (m : Nat) : List Nat → Nat
  | [] => 0
  | s :: t => if s = m then 0 else firstIdx m t + 1

/-- The selection part of the ranking loop, abstracted to event/score
pairs: replace the current selection only on a strictly greater score. -/
def selectRef : List (RawEvent × Nat) → Nat → Option RawEvent → Option RawEvent
  | [], _, sel => sel
  | (e, s) :: rest, maxS, sel =>
    if maxS < s then selectRef rest s (some e) else selectRef rest maxS sel

theorem exList_cons {α β : Type} (f : α → Except PErr β) (x : α) (xs : List α) :
    exList f (x :: xs) =
      f x >>= (fun y => exList f xs >>= (fun ys => Except.ok (y :: ys))) := rfl

theorem exList_length {α β : Type} {f : α → Except PErr β} :
    ∀ {xs : List α} {ys : List β}, exList f xs = .ok ys → ys.length = xs.length := by
  intro xs
  induction xs with
  | nil =>
    intro ys h
    injection h with h
    rw [← h]
    rfl
  | cons x xs ih =>
    intro ys h
    rw [exList_cons] at h
    obtain ⟨y, hy, h⟩ := bind_ok_inv h
    obtain ⟨ys', hys, h⟩ := bind_ok_inv h
    injection h with h
    rw [← h]
    simp [ih hys]

theorem matchLoop_cons (score : List String → List Value → Nat)
    (lowered : List String) (e : RawEvent) (rest : List RawEvent) (maxS : Nat)
    (sel : Option RawEvent) (scores : List (Value × Nat)) :
    matchLoop score lowered (e :: rest) maxS sel scores =
      eventNames e >>= (fun ns =>
        getK "EventId" e.EventId >>= (fun idv =>
          if maxS < score lowered ns then
            matchLoop score lowered rest (score lowered ns) (some e)
              (dictInsert scores idv (score lowered ns))
          else
            matchLoop score lowered rest maxS sel
              (dictInsert scores idv (score lowered ns)))) := rfl

/-- Assigning a fresh key appends the pair. -/
theorem dictInsert_fresh (scores : List (Value × Nat)) (k : Value) (v : Nat)
    (h : k ∉ scores.map Prod.fst) : dictInsert scores k v = scores ++ [(k, v)] := by
  induction scores with
  | nil => rfl
  | cons p ps ih =>
    obtain ⟨k0, v0⟩ := p
    simp only [List.map_cons, List.mem_cons] at h
    push_neg at h
    simp only [dictInsert, if_neg (fun he : k0 = k => h.1 he.symm)]
    rw [ih h.2]
    rfl

/-- Lookup after assignment. -/
theorem scoresLookup_dictInsert (scores : List (Value × Nat)) (k : Value)
    (v : Nat) (q : Value) :
    scoresLookup (dictInsert scores k v) q =
      if q = k then some v else scoresLookup scores q := by
  induction scores with
  | nil =>
    by_cases h : q = k
    · subst h
      simp [dictInsert, scoresLookup]
    · simp only [dictInsert, scoresLookup, if_neg h, if_neg (fun he : k = q => h he.symm)]
  | cons p ps ih =>
    obtain ⟨k0, v0⟩ := p
    by_cases h0 : k0 = k
    · subst h0
      by_cases h : k0 = q
      · subst h
        simp [dictInsert, scoresLookup]
      · simp only [dictInsert, if_pos rfl, scoresLookup, if_neg h,
          if_neg (fun he : q = k0 => h he.symm)]
    · simp only [dictInsert, if_neg h0, scoresLookup]
      by_cases h1 : k0 = q
      · subst h1
        rw [if_pos rfl, if_pos rfl, if_neg (fun he : k0 = k => h0 he)]
      · rw [if_neg h1, if_neg h1, ih]

/-- Every element of a score list is bounded by its maximum. -/
theorem elem_le_listMax : ∀ (l : List Nat) (x : Nat), x ∈ l → x ≤ listMax l := by
  intro l
  induction l with
  | nil =>
    intro x hx
    simp at hx
  | cons s t ih =>
    intro x hx
    rcases List.mem_cons.mp hx with rfl | hx'
    · exact le_max_left _ _
    · exact le_trans (ih x hx') (le_max_right _ _)

theorem mem_of_idx {α : Type} : ∀ (l : List α) (n : Nat) (a : α),
    l[n]? = some a → a ∈ l := by
  intro l
  induction l with
  | nil =>
    intro n a h
    simp at h
  | cons x xs ih =>
    intro n a h
    cases n with
    | zero =>
      rw [List.getElem?_cons_zero] at h
      injection h with h
      rw [← h]
      exact List.mem_cons_self x xs
    | succ n =>
      rw [List.getElem?_cons_succ] at h
      exact List.mem_cons_of_mem x (ih n a h)

/-- Entries strictly before the first occurrence of `m` differ from `m`. -/
theorem firstIdx_lt (m : Nat) : ∀ (ss : List Nat) (j t : Nat),
    j < firstIdx m ss → ss[j]? = some t → t ≠ m := by
  intro ss
  induction ss with
  | nil =>
    intro j t hj ht
    simp at ht
  | cons s tail ih =>
    intro j t hj ht
    by_cases hs : s = m
    · rw [firstIdx, if_pos hs] at hj
      exact absurd hj (Nat.not_lt_zero j)
    · rw [firstIdx, if_neg hs] at hj
      cases j with
      | zero =>
        rw [List.getElem?_cons_zero] at ht
        injection ht with ht
        rw [← ht]
        exact hs
      | succ j =>
        rw [List.getElem?_cons_succ] at ht
        exact ih j t (Nat.lt_of_succ_lt_succ hj) ht

theorem zip_map_snd : ∀ (es : List RawEvent) (ss : List Nat),
    es.length = ss.length → (es.zip ss).map Prod.snd = ss := by
  intro es
  induction es with
  | nil =>
    intro ss h
    cases ss with
    | nil => rfl
    | cons s t => simp at h
  | cons e es ih =>
    intro ss h
    cases ss with
    | nil => simp at h
    | cons s t =>
      simp only [List.zip_cons_cons, List.map_cons]
      rw [ih t (by simpa using h)]

theorem zip_get : ∀ (es : List RawEvent) (ss : List Nat) (i : Nat)
    (p : RawEvent × Nat), (es.zip ss)[i]? = some p →
    es[i]? = some p.1 ∧ ss[i]? = some p.2 := by
  intro es
  induction es with
  | nil =>
    intro ss i p h
    simp at h
  | cons e es ih =>
    intro ss i p h
    cases ss with
    | nil => simp at h
    | cons s t =>
      rw [List.zip_cons_cons] at h
      cases i with
      | zero =>
        rw [List.getElem?_cons_zero] at h
        injection h with h
        subst h
        exact ⟨List.getElem?_cons_zero, List.getElem?_cons_zero⟩
      | succ i =>
        rw [List.getElem?_cons_succ] at h
        obtain ⟨h1, h2⟩ := ih t i p h
        exact ⟨by simpa using h1, by simpa using h2⟩

/-- If every remaining score is bounded by the running maximum, the
selection never changes. -/
theorem selectRef_stay : ∀ (l : List (RawEvent × Nat)) (maxS : Nat)
    (sel : Option RawEvent), (∀ p ∈ l, p.2 ≤ maxS) →
    selectRef l maxS sel = sel := by
  intro l
  induction l with
  | nil =>
    intro maxS sel _
    rfl
  | cons p rest ih =>
    intro maxS sel h
    obtain ⟨e, s⟩ := p
    simp only [selectRef]
    rw [if_neg (not_lt.mpr (h (e, s) (List.mem_cons_self _ _)))]
    exact ih maxS sel (fun q hq => h q (List.mem_cons_of_mem _ hq))

/-- If some score strictly beats the running maximum, the loop selects the
first pair achieving the overall maximum. -/
theorem selectRef_max : ∀ (l : List (RawEvent × Nat)), ∀ (maxS : Nat)
    (sel : Option RawEvent), maxS < listMax (l.map Prod.snd) →
    ∃ p, l[firstIdx (listMax (l.map Prod.snd)) (l.map Prod.snd)]? = some p ∧
      p.2 = listMax (l.map Prod.snd) ∧ selectRef l maxS sel = some p.1 := by
  intro l
  induction l with
  | nil =>
    intro maxS sel h
    exact absurd h (Nat.not_lt_zero maxS)
  | cons p rest ih =>
    intro maxS sel h
    obtain ⟨e, s⟩ := p
    have hmap : ((e, s) :: rest).map Prod.snd = s :: rest.map Prod.snd := rfl
    have hcons : listMax (s :: rest.map Prod.snd) = max s (listMax (rest.map Prod.snd)) := rfl
    by_cases hs : listMax (rest.map Prod.snd) ≤ s
    · have hm : listMax (((e, s) :: rest).map Prod.snd) = s := by
        rw [hmap, hcons]
        exact max_eq_left hs
      have hlt : maxS < s := by
        rw [hm] at h
        exact h
      refine ⟨(e, s), ?_, ?_, ?_⟩
      · rw [hm, hmap, firstIdx, if_pos rfl]
        exact List.getElem?_cons_zero
      · exact hm.symm
      · simp only [selectRef]
        rw [if_pos hlt]
        exact selectRef_stay rest s (some e) (fun q hq =>
          le_trans (elem_le_listMax _ _ (List.mem_map_of_mem Prod.snd hq)) hs)
    · have hs' : s < listMax (rest.map Prod.snd) := not_le.mp hs
      have hm' : listMax (s :: rest.map Prod.snd) = listMax (rest.map Prod.snd) := by
        rw [hcons]
        exact max_eq_right (le_of_lt hs')
      have hm : listMax (((e, s) :: rest).map Prod.snd) = listMax (rest.map Prod.snd) := by
        rw [hmap]
        exact hm'
      have hne' : ¬s = listMax (s :: rest.map Prod.snd) := by
        rw [hm']
        exact Nat.ne_of_lt hs'
      by_cases hlt : maxS < s
      · obtain ⟨q, hq1, hq2, hq3⟩ := ih s (some e) hs'
        refine ⟨q, ?_, ?_, ?_⟩
        · rw [hmap, firstIdx, if_neg hne', List.getElem?_cons_succ, hm']
          exact hq1
        · rw [hm]
          exact hq2
        · simp only [selectRef]
          rw [if_pos hlt]
          exact hq3
      · have hlt' : maxS < listMax (rest.map Prod.snd) := by
          rw [hm] at h
          exact h
        obtain ⟨q, hq1, hq2, hq3⟩ := ih maxS sel hlt'
        refine ⟨q, ?_, ?_, ?_⟩
        · rw [hmap, firstIdx, if_neg hne', List.getElem?_cons_succ, hm']
          exact hq1
        · rw [hm]
          exact hq2
        · simp only [selectRef]
          rw [if_neg hlt]
          exact hq3

/-- With two or more candidates the Matcher runs the ranking loop from
`max_score = 0`, no selection, and an empty score dictionary. -/
theorem get_matching_two (score : List String → List Value → Nat)
    (targets : List String) (e1 e2 : RawEvent) (rest : List RawEvent) :
    get_matching_legistar_event_by_minutes_match score targets (e1 :: e2 :: rest) =
      (matchLoop score (targets.map String.toLower) (e1 :: e2 :: rest) 0 none []).map
        (fun r => ⟨selOf r.1, r.2⟩) := by
  have hc : 1 < (e1 :: e2 :: rest).length := by
    simp only [List.length_cons]
    omega
  show (if 1 < (e1 :: e2 :: rest).length then
      (matchLoop score (targets.map String.toLower) (e1 :: e2 :: rest) 0 none []).map
        (fun r => (⟨selOf r.1, r.2⟩ : AgendaMatchResults))
    else Except.ok ⟨Selected.emptyDict, []⟩) =
    (matchLoop score (targets.map String.toLower) (e1 :: e2 :: rest) 0 none []).map
      (fun r => ⟨selOf r.1, r.2⟩)
  rw [if_pos hc]

/-- The selection computed by the ranking loop is `selectRef` over the
event/score pairs. -/
theorem matchLoop_sel (score : List String → List Value → Nat)
    (lowered : List String) :
    ∀ (es : List RawEvent) (ss : List Nat) (maxS : Nat) (sel : Option RawEvent)
      (scores scores' : List (Value × Nat)) (sel' : Option RawEvent),
      exList (eventScoreL score lowered) es = .ok ss →
      matchLoop score lowered es maxS sel scores = .ok (sel', scores') →
      sel' = selectRef (es.zip ss) maxS sel := by
  intro es
  induction es with
  | nil =>
    intro ss maxS sel scores scores' sel' hss hm
    injection hss with hss
    subst hss
    injection hm with hm
    exact (congrArg Prod.fst hm).symm
  | cons e rest ih =>
    intro ss maxS sel scores scores' sel' hss hm
    rw [exList_cons] at hss
    cases hne : eventNames e with
    | error err =>
      rw [show eventScoreL score lowered e = Except.error err from by
        simp [eventScoreL, hne]] at hss
      simp at hss
    | ok ns =>
      rw [show eventScoreL score lowered e = Except.ok (score lowered ns) from by
        simp [eventScoreL, hne]] at hss
      simp only [ebind_ok] at hss
      obtain ⟨ss', hss', hcons⟩ := bind_ok_inv hss
      injection hcons with hcons
      subst hcons
      rw [matchLoop_cons, hne] at hm
      simp only [ebind_ok] at hm
      cases hid : getK "EventId" e.EventId with
      | error err =>
        rw [hid] at hm
        simp at hm
      | ok idv =>
        rw [hid] at hm
        simp only [ebind_ok] at hm
        rw [List.zip_cons_cons]
        by_cases hlt : maxS < score lowered ns
        · rw [if_pos hlt] at hm
          simp only [selectRef]
          rw [if_pos hlt]
          exact ih ss' (score lowered ns) (some e) _ scores' sel' hss' hm
        · rw [if_neg hlt] at hm
          simp only [selectRef]
          rw [if_neg hlt]
          exact ih ss' maxS sel _ scores' sel' hss' hm

theorem eventIds_length : ∀ {es : List RawEvent} {ids : List Value},
    eventIds es = some ids → ids.length = es.length := by
  intro es
  induction es with
  | nil =>
    intro ids h
    injection h with h
    rw [← h]
    rfl
  | cons e rest ih =>
    intro ids h
    cases hei : e.EventId with
    | none => simp [eventIds, hei] at h
    | some idv =>
      cases hrest : eventIds rest with
      | none => simp [eventIds, hei, hrest] at h
      | some ids' =>
        simp only [eventIds, hei, hrest, Option.some_bind, Option.map_some'] at h
        injection h with h
        rw [← h]
        simp [ih hrest]

/-- When the candidate ids are all present, pairwise distinct, and fresh
with respect to the accumulated dictionary, the loop appends exactly one
entry per candidate, keyed by its id, in candidate order. -/
theorem matchLoop_keys (score : List String → List Value → Nat)
    (lowered : List String) :
    ∀ (es : List RawEvent) (ids : List Value) (maxS : Nat)
      (sel : Option RawEvent) (scores scores' : List (Value × Nat))
      (sel' : Option RawEvent),
      eventIds es = some ids →
      (∀ i ∈ ids, i ∉ scores.map Prod.fst) →
      ids.Nodup →
      matchLoop score lowered es maxS sel scores = .ok (sel', scores') →
      scores'.map Prod.fst = scores.map Prod.fst ++ ids := by
  intro es
  induction es with
  | nil =>
    intro ids maxS sel scores scores' sel' hids hfresh hnd hm
    injection hids with hids
    subst hids
    injection hm with hm
    have h2 : scores = scores' := congrArg Prod.snd hm
    rw [← h2]
    simp
  | cons e rest ih =>
    intro ids maxS sel scores scores' sel' hids hfresh hnd hm
    cases hei : e.EventId with
    | none => simp [eventIds, hei] at hids
    | some idv =>
      cases hrest : eventIds rest with
      | none => simp [eventIds, hei, hrest] at hids
      | some ids' =>
        simp only [eventIds, hei, hrest, Option.some_bind, Option.map_some'] at hids
        injection hids with hids
        subst hids
        rw [List.nodup_cons] at hnd
        obtain ⟨hnotin, hnd'⟩ := hnd
        cases hne : eventNames e with
        | error err =>
          rw [matchLoop_cons, hne] at hm
          simp at hm
        | ok ns =>
          rw [matchLoop_cons, hne] at hm
          simp only [ebind_ok] at hm
          rw [hei] at hm
          simp only [getK_some, ebind_ok] at hm
          have hins : dictInsert scores idv (score lowered ns) =
              scores ++ [(idv, score lowered ns)] :=
            dictInsert_fresh _ _ _ (hfresh idv (List.mem_cons_self _ _))
          rw [hins] at hm
          have hfresh' : ∀ i ∈ ids',
              i ∉ (scores ++ [(idv, score lowered ns)]).map Prod.fst := by
            intro i hi
            simp only [List.map_append, List.mem_append, List.map_cons,
              List.map_nil, List.mem_singleton]
            intro hcon
            rcases hcon with hcon | hcon
            · exact hfresh i (List.mem_cons_of_mem _ hi) hcon
            · rw [hcon] at hi
              exact hnotin hi
          have hfin : scores'.map Prod.fst =
              (scores ++ [(idv, score lowered ns)]).map Prod.fst ++ ids' := by
            by_cases hlt : maxS < score lowered ns
            · rw [if_pos hlt] at hm
              exact ih ids' _ _ _ scores' sel' hrest hfresh' hnd' hm
            · rw [if_neg hlt] at hm
              exact ih ids' _ _ _ scores' sel' hrest hfresh' hnd' hm
          rw [hfin]
          simp [List.map_append]

/-- Keys present in the accumulated dictionary survive the rest of the
loop. -/
theorem matchLoop_lookup_mono (score : List String → List Value → Nat)
    (lowered : List String) :
    ∀ (es : List RawEvent) (maxS : Nat) (sel : Option RawEvent)
      (scores scores' : List (Value × Nat)) (sel' : Option RawEvent) (k : Value),
      matchLoop score lowered es maxS sel scores = .ok (sel', scores') →
      (scoresLookup scores k).isSome → (scoresLookup scores' k).isSome := by
  intro es
  induction es with
  | nil =>
    intro maxS sel scores scores' sel' k hm hk
    injection hm with hm
    have h2 : scores = scores' := congrArg Prod.snd hm
    rw [← h2]
    exact hk
  | cons e rest ih =>
    intro maxS sel scores scores' sel' k hm hk
    cases hne : eventNames e with
    | error err =>
      rw [matchLoop_cons, hne] at hm
      simp at hm
    | ok ns =>
      rw [matchLoop_cons, hne] at hm
      simp only [ebind_ok] at hm
      cases hid : getK "EventId" e.EventId with
      | error err =>
        rw [hid] at hm
        simp at hm
      | ok idv =>
        rw [hid] at hm
        simp only [ebind_ok] at hm
        have hk' : (scoresLookup (dictInsert scores idv (score lowered ns)) k).isSome := by
          rw [scoresLookup_dictInsert]
          by_cases hq : k = idv
          · rw [if_pos hq]
            rfl
          · rw [if_neg hq]
            exact hk
        by_cases hlt : maxS < score lowered ns
        · rw [if_pos hlt] at hm
          exact ih _ _ _ scores' sel' k hm hk'
        · rw [if_neg hlt] at hm
          exact ih _ _ _ scores' sel' k hm hk'

/-- When every per-candidate score is `0`, the loop preserves the
"all values are 0" dictionary invariant and records an entry for each
candidate id. -/
theorem matchLoop_zero_entries (score : List String → List Value → Nat)
    (lowered : List String) :
    ∀ (es : List RawEvent) (ss : List Nat) (maxS : Nat) (sel : Option RawEvent)
      (scores scores' : List (Value × Nat)) (sel' : Option RawEvent),
      exList (eventScoreL score lowered) es = .ok ss →
      (∀ s ∈ ss, s = 0) →
      (∀ k n, scoresLookup scores k = some n → n = 0) →
      matchLoop score lowered es maxS sel scores = .ok (sel', scores') →
      (∀ k n, scoresLookup scores' k = some n → n = 0) ∧
      (∀ e ∈ es, ∀ idv, e.EventId = some idv →
        (scoresLookup scores' idv).isSome) := by
  intro es
  induction es with
  | nil =>
    intro ss maxS sel scores scores' sel' hss hz hinv hm
    injection hm with hm
    have h2 : scores = scores' := congrArg Prod.snd hm
    rw [← h2]
    refine ⟨hinv, ?_⟩
    intro e he
    simp at he
  | cons e rest ih =>
    intro ss maxS sel scores scores' sel' hss hz hinv hm
    rw [exList_cons] at hss
    cases hne : eventNames e with
    | error err =>
      rw [show eventScoreL score lowered e = Except.error err from by
        simp [eventScoreL, hne]] at hss
      simp at hss
    | ok ns =>
      rw [show eventScoreL score lowered e = Except.ok (score lowered ns) from by
        simp [eventScoreL, hne]] at hss
      simp only [ebind_ok] at hss
      obtain ⟨ss', hss', hcons⟩ := bind_ok_inv hss
      injection hcons with hcons
      subst hcons
      have hz0 : score lowered ns = 0 := hz _ (List.mem_cons_self _ _)
      have hz' : ∀ s ∈ ss', s = 0 := fun s hs => hz s (List.mem_cons_of_mem _ hs)
      rw [matchLoop_cons, hne] at hm
      simp only [ebind_ok] at hm
      cases hid : getK "EventId" e.EventId with
      | error err =>
        rw [hid] at hm
        simp at hm
      | ok idv =>
        rw [hid] at hm
        simp only [ebind_ok] at hm
        have hinv0 : ∀ k n,
            scoresLookup (dictInsert scores idv (score lowered ns)) k = some n →
            n = 0 := by
          intro k n hkn
          rw [scoresLookup_dictInsert] at hkn
          by_cases hq : k = idv
          · rw [if_pos hq] at hkn
            injection hkn with hkn
            rw [← hkn]
            exact hz0
          · rw [if_neg hq] at hkn
            exact hinv k n hkn
        have hlook : (scoresLookup (dictInsert scores idv (score lowered ns)) idv).isSome := by
          rw [scoresLookup_dictInsert, if_pos rfl]
          rfl
        have step : ∀ maxS2 sel2,
            matchLoop score lowered rest maxS2 sel2
              (dictInsert scores idv (score lowered ns)) = .ok (sel', scores') →
            (∀ k n, scoresLookup scores' k = some n → n = 0) ∧
            (∀ e2 ∈ e :: rest, ∀ idv2, e2.EventId = some idv2 →
              (scoresLookup scores' idv2).isSome) := by
          intro maxS2 sel2 hm2
          obtain ⟨hinv2, hmem2⟩ := ih ss' maxS2 sel2 _ scores' sel' hss' hz' hinv0 hm2
          refine ⟨hinv2, ?_⟩
          intro e2 he2 idv2 hei2
          rcases List.mem_cons.mp he2 with rfl | he2'
          · have hEq := getK_ok_inv hid
            rw [hei2] at hEq
            rw [Option.some.inj hEq]
            exact matchLoop_lookup_mono score lowered rest _ _ _ scores' sel' idv hm2 hlook
          · exact hmem2 e2 he2' idv2 hei2
        by_cases hlt : maxS < score lowered ns
        · rw [if_pos hlt] at hm
          exact step _ _ hm
        · rw [if_neg hlt] at hm
          exact step _ _ hm

/-! ### Claim C4 -/

/-- C4 (counterexample to the claim as stated): with two candidates whose
similarity scores are both `0`, the maximum score over all candidates is
`0` and the first candidate achieves it, yet the Matcher selects no event
at all (`None`), because `max_score` starts at `0.0` and is only beaten by
a strictly greater score. -/
theorem C4_counterexample :
    get_matching_legistar_event_by_minutes_match (fun _ _ => 0) ["x"] [mE1, mE2] =
      .ok ⟨Selected.noneSel, [(.vInt 1, 0), (.vInt 2, 0)]⟩ ∧
    listMax [0, 0] = 0 ∧
    Selected.noneSel ≠ Selected.event mE1 :=
  ⟨rfl, rfl, by decide⟩

/-- C4 (amended): with two or more candidates, whenever some candidate's
similarity score is positive, the selected event is the first candidate
(in input order) achieving the maximum score — a later candidate with an
equal score never replaces it.  When every score is `0`, no candidate is
selected (see C10). -/
theorem C4_amended (score : List String → List Value → Nat)
    (targets : List String) (es : List RawEvent) (r : AgendaMatchResults)
    (ss : List Nat) (h2 : 2 ≤ es.length)
    (hss : exList (eventScore score targets) es = .ok ss)
    (hpos : 0 < listMax ss)
    (hr : get_matching_legistar_event_by_minutes_match score targets es = .ok r) :
    ∃ (i : Nat) (e : RawEvent) (s : Nat), es[i]? = some e ∧ ss[i]? = some s ∧
      s = listMax ss ∧
      (∀ (j t : Nat), j < i → ss[j]? = some t → t < listMax ss) ∧
      r.selected_event = Selected.event e := by
  cases es with
  | nil => simp at h2
  | cons e1 tl =>
    cases tl with
    | nil => simp at h2
    | cons e2 rest =>
      rw [get_matching_two] at hr
      cases hml : matchLoop score (targets.map String.toLower)
          (e1 :: e2 :: rest) 0 none [] with
      | error err =>
        rw [hml] at hr
        simp at hr
      | ok p =>
        obtain ⟨sel2, scores2⟩ := p
        rw [hml] at hr
        simp only [emap_ok] at hr
        injection hr with hr
        subst hr
        have hlen : ss.length = (e1 :: e2 :: rest).length := exList_length hss
        have hmapsnd : ((e1 :: e2 :: rest).zip ss).map Prod.snd = ss :=
          zip_map_snd _ _ hlen.symm
        have hmax : 0 < listMax (((e1 :: e2 :: rest).zip ss).map Prod.snd) := by
          rw [hmapsnd]
          exact hpos
        obtain ⟨p, hp1, hp2, hp3⟩ := selectRef_max _ 0 none hmax
        rw [hmapsnd] at hp1 hp2
        have hsel := matchLoop_sel score (targets.map String.toLower) _ ss 0 none
          [] scores2 sel2 hss hml
        obtain ⟨he, hsidx⟩ := zip_get _ ss (firstIdx (listMax ss) ss) p hp1
        refine ⟨firstIdx (listMax ss) ss, p.1, p.2, he, hsidx, hp2, ?_, ?_⟩
        · intro j t hj ht
          exact lt_of_le_of_ne (elem_le_listMax ss t (mem_of_idx ss j t ht))
            (firstIdx_lt _ ss j t hj ht)
        · show selOf sel2 = Selected.event p.1
          rw [hsel, hp3]
          rfl

/-- Candidates for the C4/C5 witnesses: event 1 has two items, event 2 has
one, so a per-item score function ranks event 1 strictly higher. -/
def w1 : RawEvent :=
  ⟨some (.vInt 1), none, none, none, none, none, none,
   some [⟨some (.vStr "A"), none, none, none, none, none, none, none⟩,
         ⟨some (.vStr "B"), none, none, none, none, none, none, none⟩]⟩

def w2 : RawEvent :=
  ⟨some (.vInt 2), none, none, none, none, none, none,
   some [⟨some (.vStr "C"), none, none, none, none, none, none, none⟩]⟩

def score4 : List String → List Value → Nat := fun _ ns => 10 * ns.length

def rW : AgendaMatchResults := ⟨.event w1, [(.vInt 1, 20), (.vInt 2, 10)]⟩

theorem C4_witness :
    ∃ (i : Nat) (e : RawEvent) (s : Nat), [w1, w2][i]? = some e ∧
      ([20, 10] : List Nat)[i]? = some s ∧ s = listMax [20, 10] ∧
      (∀ (j t : Nat), j < i → ([20, 10] : List Nat)[j]? = some t → t < listMax [20, 10]) ∧
      rW.selected_event = Selected.event e :=
  C4_amended score4 [] [w1, w2] rW [20, 10] (by decide) rfl (by decide) rfl

/-! ### Claim C5 -/

/-- C5 (counterexample to the claim as stated): two candidates sharing the
event id `7` collapse to a single score-map entry, so the number of entries
is 1, not the number of candidates. -/
theorem C5_counterexample :
    get_matching_legistar_event_by_minutes_match (fun _ _ => 0) [] [dupE, dupE] =
      .ok ⟨Selected.noneSel, [(.vInt 7, 0)]⟩ ∧
    [(Value.vInt 7, (0 : Nat))].length ≠ [dupE, dupE].length :=
  ⟨rfl, by decide⟩

/-- C5 (amended): when the candidates' event ids are pairwise distinct, the
score map has exactly one entry per candidate, keyed by that candidate's
id, in candidate order; duplicated ids would collapse into one entry. -/
theorem C5_amended (score : List String → List Value → Nat)
    (targets : List String) (es : List RawEvent) (r : AgendaMatchResults)
    (ids : List Value) (hne : es ≠ [])
    (hids : eventIds es = some ids) (hnd : ids.Nodup)
    (hr : get_matching_legistar_event_by_minutes_match score targets es = .ok r) :
    r.match_scores.map Prod.fst = ids ∧ r.match_scores.length = es.length := by
  cases es with
  | nil => exact absurd rfl hne
  | cons e1 tl =>
    cases tl with
    | nil =>
      cases hei : e1.EventId with
      | none => simp [eventIds, hei] at hids
      | some idv =>
        simp only [eventIds, hei, Option.some_bind, Option.map_some'] at hids
        injection hids with hids
        have hone : get_matching_legistar_event_by_minutes_match score targets [e1] =
            .ok ⟨Selected.event e1, [(idv, 100)]⟩ := by
          simp [get_matching_legistar_event_by_minutes_match, hei]
        rw [hone] at hr
        injection hr with hr
        subst hr
        rw [← hids]
        exact ⟨rfl, rfl⟩
    | cons e2 rest =>
      rw [get_matching_two] at hr
      cases hml : matchLoop score (targets.map String.toLower)
          (e1 :: e2 :: rest) 0 none [] with
      | error err =>
        rw [hml] at hr
        simp at hr
      | ok p =>
        obtain ⟨sel2, scores2⟩ := p
        rw [hml] at hr
        simp only [emap_ok] at hr
        injection hr with hr
        subst hr
        have hkeys := matchLoop_keys score (targets.map String.toLower)
          (e1 :: e2 :: rest) ids 0 none [] scores2 sel2 hids
          (by intro i _ hcon; simp at hcon) hnd hml
        simp only [List.map_nil, List.nil_append] at hkeys
        constructor
        · exact hkeys
        · show scores2.length = (e1 :: e2 :: rest).length
          rw [← List.length_map scores2 Prod.fst, hkeys, eventIds_length hids]

theorem C5_witness :
    rW.match_scores.map Prod.fst = [Value.vInt 1, Value.vInt 2] ∧
    rW.match_scores.length = [w1, w2].length :=
  C5_amended score4 [] [w1, w2] rW [.vInt 1, .vInt 2] (by simp) rfl (by decide) rfl

/-! ### Claim C10 -/

/-- C10: with two or more candidates all of whose similarity scores are
`0`, the Matcher selects no event (`selected_event` is `None`), while the
score map still records the entry `0` for every candidate's id. -/
theorem C10_confirmed (score : List String → List Value → Nat)
    (targets : List String) (es : List RawEvent) (r : AgendaMatchResults)
    (ss : List Nat) (h2 : 2 ≤ es.length)
    (hss : exList (eventScore score targets) es = .ok ss)
    (hz : ∀ s ∈ ss, s = 0)
    (hr : get_matching_legistar_event_by_minutes_match score targets es = .ok r) :
    r.selected_event = Selected.noneSel ∧
    ∀ e ∈ es, ∀ idv, e.EventId = some idv →
      scoresLookup r.match_scores idv = some 0 := by
  cases es with
  | nil => simp at h2
  | cons e1 tl =>
    cases tl with
    | nil => simp at h2
    | cons e2 rest =>
      rw [get_matching_two] at hr
      cases hml : matchLoop score (targets.map String.toLower)
          (e1 :: e2 :: rest) 0 none [] with
      | error err =>
        rw [hml] at hr
        simp at hr
      | ok p =>
        obtain ⟨sel2, scores2⟩ := p
        rw [hml] at hr
        simp only [emap_ok] at hr
        injection hr with hr
        subst hr
        have hsel := matchLoop_sel score (targets.map String.toLower) _ ss 0 none
          [] scores2 sel2 hss hml
        have hstay : selectRef ((e1 :: e2 :: rest).zip ss) 0 none = none := by
          refine selectRef_stay _ 0 none ?_
          intro p hp
          obtain ⟨pe, psc⟩ := p
          have hmem : psc ∈ ss := (List.of_mem_zip hp).2
          exact le_of_eq (hz psc hmem)
        constructor
        · show selOf sel2 = Selected.noneSel
          rw [hsel, hstay]
          rfl
        · intro e he idv hei
          obtain ⟨hinv, hmem⟩ := matchLoop_zero_entries score
            (targets.map String.toLower) (e1 :: e2 :: rest) ss 0 none [] scores2
            sel2 hss hz (by intro k n hkn; simp [scoresLookup] at hkn) hml
          have h1 := hmem e he idv hei
          show scoresLookup scores2 idv = some 0
          cases hl : scoresLookup scores2 idv with
          | none =>
            rw [hl] at h1
            simp at h1
          | some n =>
            rw [hinv idv n hl]

def r0 : AgendaMatchResults := ⟨.noneSel, [(.vInt 1, 0), (.vInt 2, 0)]⟩

theorem C10_witness :
    r0.selected_event = Selected.noneSel ∧
    scoresLookup r0.match_scores (.vInt 1) = some 0 := by
  have h := C10_confirmed (fun _ _ => 0) [] [mE1, mE2] r0 [0, 0] (by decide) rfl
    (by decide) rfl
  exact ⟨h.1, h.2 mE1 (List.mem_cons_self _ _) (.vInt 1) rfl⟩

end CdpTools
